import Mathlib

/-!
Verification of the nanobot (pocketbot fork) session/state, message-bus,
provider-resolution and identity subsystems.

The repository ships `nanobot/identity.py` together with the test suite for
`nanobot.session.manager`, `nanobot.config.schema` and `nanobot.bus.queue`.
The implementation modules for the session manager, the config schema and the
message bus are not part of the source tree here, so those components are
modelled from the specification (each such definition is marked
`Modelled from the spec:`); `identity.py` is embedded from the source.
-/

set_option autoImplicit false

namespace Nanobot

/-- Modelled from the spec: a Message record has a fixed core field set
(`role`, `content`, `timestamp`) plus an open, ordered mapping of additional
string-keyed attributes (tool_calls, tool_call_id, name, ...) passed through
opaquely and preserved verbatim. Timestamps are abstract clock values. -/
structure Message where
  role : String
  content : String
  timestamp : Nat
  extra : List (String × String)
deriving DecidableEq, Repr

/-- Modelled from the spec: the dictionary shape `{role, content, ...preserved
extras}` produced by `get_history`. -/
structure HistEntry where
  role : String
  content : String
  extra : List (String × String)
deriving DecidableEq, Repr

/-- Projection of a stored message to its history dictionary. -/
def Message.toHist (m : Message) : HistEntry :=
  ⟨m.role, m.content, m.extra⟩

/-- Modelled from the spec: a Session holds one conversation's ordered message
history, a consolidation marker, a creation time and an update time; `key` is
immutable once created. -/
structure Session where
  key : String
  messages : List Message
  last_consolidated : Nat
  updated_at : Nat
  created_at : String
deriving DecidableEq, Repr

/-- Modelled from the spec: `Session(key=...)` constructs a fresh empty
session. -/
def Session.fresh (key : String) : Session :=
  { key := key, messages := [], last_consolidated := 0, updated_at := 0,
    created_at := "" }

/-- Modelled from the spec: `add_message(role, content, **extra)` appends a
Message with a current timestamp and any extra fields merged in verbatim, and
updates `updated_at`. No validation of role/content. -/
def Session.add_message (s : Session) (now : Nat) (role content : String)
    (extra : List (String × String)) : Session :=
  { s with
    messages := s.messages ++ [⟨role, content, now, extra⟩],
    updated_at := now }

/-- Modelled from the spec: `get_history(max_messages=None)` produces the
`{role, content, ...extras}` dictionaries in original order; when
`max_messages = n` is given it returns only the most recent `n` entries
(the tail), never reordering. -/
def Session.get_history (s : Session) (max_messages : Option Nat) :
    List HistEntry :=
  match max_messages with
  | none => s.messages.map Message.toHist
  | some n => (((s.messages.map Message.toHist).reverse).take n).reverse

/-- Modelled from the spec: `clear()` empties `messages` and resets
`last_consolidated` to 0, preserving `key`. -/
def Session.clear (s : Session) : Session :=
  { s with messages := [], last_consolidated := 0 }

/-! ### The durable session store -/

/-- Modelled from the spec: one parsed record of a newline-delimited durable
session log. The first record of a well-formed log is a metadata record;
subsequent records are messages in append order. Lines that cannot be parsed
are represented by `garbage` and are skipped by the reader. -/
inductive LogLine where
  | meta (created_at : String)
  | msg (m : Message)
  | garbage (raw : String)
deriving DecidableEq, Repr

/-- Replay of a durable log: the messages of every parseable message record,
in log order; metadata and unreadable lines are ignored. -/
def msgsOf : List LogLine → List Message
  | [] => []
  | LogLine.msg m :: rest => m :: msgsOf rest
  | _ :: rest => msgsOf rest

/-- The creation time recovered from the first metadata record of a log,
or `""` when none can be recovered. -/
def metaOf : List LogLine → String
  | [] => ""
  | LogLine.meta c :: _ => c
  | _ :: rest => metaOf rest

/-- Association-list lookup keyed by decidable equality: the cache and the two
on-disk session directories are finite maps. -/
def alookup {α β : Type} [DecidableEq α] : List (α × β) → α → Option β
  | [], _ => none
  | (k2, v) :: rest, k => if k2 = k then some v else alookup rest k

/-- Number of entries of an association list carrying a given key. -/
def countKey {α β : Type} [DecidableEq α] : List (α × β) → α → Nat
  | [], _ => 0
  | (k2, _) :: rest, k => (if k2 = k then 1 else 0) + countKey rest k

/-- Removal of every entry carrying a given key. -/
def removeKey {α β : Type} [DecidableEq α] : List (α × β) → α → List (α × β)
  | [], _ => []
  | (k2, v) :: rest, k =>
    if k2 = k then removeKey rest k else (k2, v) :: removeKey rest k

/-- A sessions directory: a finite map from escaped filename to parsed log
content. -/
abbrev FileStore := List (String × List LogLine)

/-- Overwrite (or create) a file: prior content for the name is discarded. -/
def setFile (fs : FileStore) (fname : String) (content : List LogLine) :
    FileStore :=
  (fname, content) :: removeKey fs fname

/-- Modelled from the spec: `safe_filename` makes a key filesystem-safe by
escaping every character that is not alphanumeric, `-` or `_`; the manager
first replaces `:` with `_` before escaping (as the legacy-migration test
does). -/
def safe_filename (k : String) : String :=
  String.mk (k.toList.map
    (fun c => if c.isAlphanum || c = '-' || c = '_' then c else '_'))

/-- The durable log filename derived from a session key. -/
def session_filename (k : String) : String :=
  safe_filename (String.mk (k.toList.map fun c => if c = ':' then '_' else c))
    ++ ".jsonl"

/-- Modelled from the spec: the SessionManager owns an in-memory cache of live
Sessions keyed by conversation identity, a current sessions directory and a
legacy sessions directory (one-time migration source). Each `get_or_create`
call is a single atomic critical section (check-then-insert), so the
concurrent semantics is the interleaving of these atomic steps. -/
structure SessionManager where
  cache : List (String × Session)
  store : FileStore
  legacy_store : FileStore
deriving DecidableEq, Repr

/-- A freshly constructed manager over given storage roots: empty cache. -/
def SessionManager.fresh (store legacy : FileStore) : SessionManager :=
  { cache := [], store := store, legacy_store := legacy }

/-- Hydration of a session from a durable log: replay the full log. -/
def hydrate (k : String) (log : List LogLine) : Session :=
  { key := k, messages := msgsOf log, last_consolidated := 0,
    updated_at := 0, created_at := metaOf log }

/-- Modelled from the spec: `get_or_create(key)` returns the cached Session if
present; otherwise hydrates from the current-location log, else performs the
one-time legacy migration (adopt the legacy file's contents as the new
session's history, copy it to the current root and retire the legacy file),
else creates a brand-new empty Session. The result is inserted into the cache
before being returned; the whole step is one atomic critical section. -/
def SessionManager.get_or_create (m : SessionManager) (k : String) :
    Session × SessionManager :=
  match alookup m.cache k with
  | some s => (s, m)
  | none =>
    let fname := session_filename k
    match alookup m.store fname with
    | some log =>
      let s := hydrate k log
      (s, { m with cache := (k, s) :: m.cache })
    | none =>
      match alookup m.legacy_store fname with
      | some log =>
        let s := hydrate k log
        (s, { m with
              cache := (k, s) :: m.cache,
              store := setFile m.store fname log,
              legacy_store := removeKey m.legacy_store fname })
      | none =>
        let s := Session.fresh k
        (s, { m with cache := (k, s) :: m.cache })

/-- Serialization of a session for `save`: a metadata record followed by the
full message list in order. -/
def serialize (s : Session) : List LogLine :=
  LogLine.meta s.created_at :: s.messages.map LogLine.msg

/-- Modelled from the spec: `save(session)` serializes the session's full
message list (plus minimal metadata) to its durable log, overwriting prior
content. -/
def SessionManager.save (m : SessionManager) (s : Session) : SessionManager :=
  { m with store := setFile m.store (session_filename s.key) (serialize s) }

/-- Modelled from the spec: `invalidate(key)` removes the key from the cache
without touching the durable log. -/
def SessionManager.invalidate (m : SessionManager) (k : String) :
    SessionManager :=
  { m with cache := removeKey m.cache k }

/-- Modelled from the spec: `list_sessions()` enumerates all durably persisted
sessions, independent of the cache. -/
def SessionManager.list_sessions (m : SessionManager) : List String :=
  m.store.map Prod.fst

/-! ### The message bus -/

/-- Modelled from the spec: an in-process publish/subscribe router. Each
subscriber is identified by a handle and owns an ordered queue of events
published after it subscribed (no replay of history). -/
structure MessageBus (E : Type) where
  nextHandle : Nat
  subs : List (Nat × List E)
deriving DecidableEq, Repr

/-- A freshly created bus: no subscribers. -/
def MessageBus.empty (E : Type) : MessageBus E :=
  { nextHandle := 0, subs := [] }

/-- Modelled from the spec: `subscribe()` registers a new consumer under a
fresh handle with an empty queue and returns the handle. -/
def MessageBus.subscribe {E : Type} (b : MessageBus E) :
    Nat × MessageBus E :=
  (b.nextHandle,
   { nextHandle := b.nextHandle + 1, subs := (b.nextHandle, []) :: b.subs })

/-- Modelled from the spec: `publish(event)` delivers the event to every
currently-subscribed consumer by enqueueing it at the end of the consumer's
own queue; no consumer's queue state affects delivery to the others. -/
def MessageBus.publish {E : Type} (b : MessageBus E) (e : E) : MessageBus E :=
  { b with subs := b.subs.map (fun p => (p.1, p.2 ++ [e])) }

/-- Modelled from the spec: `unsubscribe(handle)` removes the consumer; no
further events are delivered to it afterward. -/
def MessageBus.unsubscribe {E : Type} (b : MessageBus E) (h : Nat) :
    MessageBus E :=
  { b with subs := removeKey b.subs h }

/-- Sequential publication of a list of events. -/
def MessageBus.publishAll {E : Type} (b : MessageBus E) : List E → MessageBus E
  | [] => b
  | e :: es => (b.publish e).publishAll es

/-! ### Provider resolution -/

/-- Modelled from the spec: per-provider credential record
`{api_key, api_base, extra_headers}`; defaults are an empty key, no custom
base and no extra headers. -/
structure ProviderConfig where
  api_key : String
  api_base : Option String
  extra_headers : Option (List (String × String))
deriving DecidableEq, Repr

/-- The all-defaults provider record. -/
def ProviderConfig.default : ProviderConfig :=
  { api_key := "", api_base := none, extra_headers := none }

/-- Modelled from the spec: the credential mapping, one field per known
provider, in the fixed declared order used for fallback scans. -/
structure ProvidersConfig where
  anthropic : ProviderConfig
  openai : ProviderConfig
  openrouter : ProviderConfig
  deepseek : ProviderConfig
  groq : ProviderConfig
  zhipu : ProviderConfig
  dashscope : ProviderConfig
  vllm : ProviderConfig
  gemini : ProviderConfig
  moonshot : ProviderConfig
  minimax : ProviderConfig
  aihubmix : ProviderConfig
  siliconflow : ProviderConfig
  openai_codex : ProviderConfig
  github_copilot : ProviderConfig
  custom : ProviderConfig
deriving DecidableEq, Repr

/-- The all-defaults credential mapping (no API keys configured). -/
def ProvidersConfig.default : ProvidersConfig :=
  { anthropic := ProviderConfig.default, openai := ProviderConfig.default,
    openrouter := ProviderConfig.default, deepseek := ProviderConfig.default,
    groq := ProviderConfig.default, zhipu := ProviderConfig.default,
    dashscope := ProviderConfig.default, vllm := ProviderConfig.default,
    gemini := ProviderConfig.default, moonshot := ProviderConfig.default,
    minimax := ProviderConfig.default, aihubmix := ProviderConfig.default,
    siliconflow := ProviderConfig.default,
    openai_codex := ProviderConfig.default,
    github_copilot := ProviderConfig.default,
    custom := ProviderConfig.default }

/-- The providers in fixed declared order, paired with their names. -/
def ProvidersConfig.ordered (p : ProvidersConfig) :
    List (String × ProviderConfig) :=
  [("anthropic", p.anthropic), ("openai", p.openai),
   ("openrouter", p.openrouter), ("deepseek", p.deepseek),
   ("groq", p.groq), ("zhipu", p.zhipu), ("dashscope", p.dashscope),
   ("vllm", p.vllm), ("gemini", p.gemini), ("moonshot", p.moonshot),
   ("minimax", p.minimax), ("aihubmix", p.aihubmix),
   ("siliconflow", p.siliconflow), ("openai_codex", p.openai_codex),
   ("github_copilot", p.github_copilot), ("custom", p.custom)]

/-- `startsWithL s pre` : the char list `s` starts with `pre`. -/
def startsWithL : List Char → List Char → Bool
  | _, [] => true
  | [], _ :: _ => false
  | a :: as, b :: bs => a = b && startsWithL as bs

/-- `containsSub pat s` : the char list `pat` occurs as a contiguous
substring of `s`. -/
def containsSub (pat : List Char) : List Char → Bool
  | [] => startsWithL [] pat
  | c :: rest => startsWithL (c :: rest) pat || containsSub pat rest

/-- A provider-prefix match: the model string starts with `<name>/`. -/
def prefixMatch (model name : String) : Bool :=
  startsWithL model.toList (name.toList ++ ['/'])

/-- A keyword match: the provider's name occurs inside the model string
(the provider's recognized alias set is its own name). -/
def keywordMatch (model name : String) : Bool :=
  containsSub name.toList model.toList

/-- Whether a provider entry has a non-empty API key. -/
def hasKey (p : String × ProviderConfig) : Bool :=
  p.2.api_key != ""

/-- The first provider in declared order with a non-empty API key. -/
def firstWithKey (ps : List (String × ProviderConfig)) :
    Option (String × ProviderConfig) :=
  ps.find? hasKey

/-- Modelled from the spec: deterministic provider resolution. (1) a
recognized provider prefix with a non-empty key wins; (2) else the first
provider in declared order whose name occurs as a keyword in the model string
and whose key is non-empty; (3) else the first provider in declared order
with a non-empty key; (4) else absence. -/
def resolve_provider (ps : List (String × ProviderConfig)) :
    Option String → Option (String × ProviderConfig)
  | none => firstWithKey ps
  | some m =>
    match ps.find? (fun p => prefixMatch m p.1 && hasKey p) with
    | some r => some r
    | none =>
      match ps.find? (fun p => keywordMatch m p.1 && hasKey p) with
      | some r => some r
      | none => firstWithKey ps

/-- Modelled from the spec: the configuration object, restricted to the
credential mapping that provider resolution reads. -/
structure Config where
  providers : ProvidersConfig
deriving DecidableEq, Repr

/-- Modelled from the spec: `get_provider(model)` returns the resolved
provider's config, or absence. -/
def Config.get_provider (c : Config) (model : Option String) :
    Option ProviderConfig :=
  (resolve_provider c.providers.ordered model).map Prod.snd

/-- Modelled from the spec: `get_provider_name(model)` returns the resolved
provider's identifier under the same resolution, or absence. -/
def Config.get_provider_name (c : Config) (model : Option String) :
    Option String :=
  (resolve_provider c.providers.ordered model).map Prod.fst

/-- Modelled from the spec: `get_api_key(model)` returns the resolved
provider's API key under the same resolution, or absence. -/
def Config.get_api_key (c : Config) (model : Option String) : Option String :=
  (resolve_provider c.providers.ordered model).map (fun p => p.2.api_key)

/-- Modelled from the spec: the built-in default API base of a provider
(used when no custom base is configured). -/
def default_api_base (name : String) : String :=
  if name = "openai" then "https://api.openai.com/v1"
  else if name = "deepseek" then "https://api.deepseek.com"
  else if name = "openrouter" then "https://openrouter.ai/api/v1"
  else if name = "groq" then "https://api.groq.com/openai/v1"
  else ""

/-- Modelled from the spec: `get_api_base(model)` follows the same resolution
and returns the resolved provider's custom API base if set, else its
default. -/
def Config.get_api_base (c : Config) (model : Option String) :
    Option String :=
  (resolve_provider c.providers.ordered model).map
    (fun p => p.2.api_base.getD (default_api_base p.1))

/-! ### Data-directory resolution (`nanobot/identity.py`) -/

/-- The environment and filesystem facts `_resolve_data_dir` reads: the
`POCKETBOT_HOME` variable (`none` = unset) and whether `~/.pocketbot` and
`~/.nanobot` exist. -/
structure HomeState where
  pocketbot_home : Option String
  pocketbot_exists : Bool
  nanobot_exists : Bool
deriving DecidableEq, Repr

/-- `Path.expanduser`: a leading `~` is replaced by the home directory. -/
def expanduser (p : String) (home : String) : String :=
  if p = "~" then home
  else if startsWithL p.toList ['~', '/'] then
    home ++ String.mk (p.toList.drop 1)
  else p

/-- `_resolve_data_dir` from `nanobot/identity.py`: a non-empty
`POCKETBOT_HOME` wins (user-expanded); otherwise `~/.pocketbot` is preferred
when it exists or `~/.nanobot` does not, and `~/.nanobot` is used exactly
when it exists and `~/.pocketbot` does not. -/
def resolve_data_dir (st : HomeState) (home : String) : String :=
  match st.pocketbot_home with
  | some env =>
    if env ≠ "" then expanduser env home
    else
      if st.pocketbot_exists || !st.nanobot_exists then home ++ "/.pocketbot"
      else home ++ "/.nanobot"
  | none =>
    if st.pocketbot_exists || !st.nanobot_exists then home ++ "/.pocketbot"
    else home ++ "/.nanobot"

/-- `CONFIG_PATH = DATA_DIR / "config.json"`. -/
def config_path (st : HomeState) (home : String) : String :=
  resolve_data_dir st home ++ "/config.json"

/-- `SESSIONS_DIR = DATA_DIR / "sessions"`. -/
def sessions_dir (st : HomeState) (home : String) : String :=
  resolve_data_dir st home ++ "/sessions"

/-- `HISTORY_DIR = DATA_DIR / "history"`. -/
def history_dir (st : HomeState) (home : String) : String :=
  resolve_data_dir st home ++ "/history"

/-- `MEDIA_DIR = DATA_DIR / "media"`. -/
def media_dir (st : HomeState) (home : String) : String :=
  resolve_data_dir st home ++ "/media"

/-- `BRIDGE_DIR = DATA_DIR / "bridge"`. -/
def bridge_dir (st : HomeState) (home : String) : String :=
  resolve_data_dir st home ++ "/bridge"

/-! ### Helper lemmas: association lists -/

theorem countKey_eq_zero_of_alookup_none {α β : Type} [DecidableEq α]
    {l : List (α × β)} {k : α} (h : alookup l k = none) : countKey l k = 0 := by
  induction l with
  | nil => rfl
  | cons a rest ih =>
    obtain ⟨k2, v⟩ := a
    by_cases hk : k2 = k
    · simp [alookup, hk] at h
    · simp only [alookup, if_neg hk] at h
      simp [countKey, if_neg hk, ih h]

theorem one_le_countKey_of_alookup_some {α β : Type} [DecidableEq α]
    {l : List (α × β)} {k : α} {v : β} (h : alookup l k = some v) :
    1 ≤ countKey l k := by
  induction l with
  | nil => simp [alookup] at h
  | cons a rest ih =>
    obtain ⟨k2, v2⟩ := a
    by_cases hk : k2 = k
    · simp [countKey, if_pos hk]
    · simp only [alookup, if_neg hk] at h
      simpa [countKey, if_neg hk] using ih h

theorem alookup_removeKey_self {α β : Type} [DecidableEq α]
    (l : List (α × β)) (k : α) : alookup (removeKey l k) k = none := by
  induction l with
  | nil => rfl
  | cons a rest ih =>
    obtain ⟨k2, v⟩ := a
    by_cases hk : k2 = k
    · simpa [removeKey, hk] using ih
    · simpa [removeKey, hk, alookup] using ih

theorem alookup_removeKey_ne {α β : Type} [DecidableEq α]
    (l : List (α × β)) {k k2 : α} (h : k2 ≠ k) :
    alookup (removeKey l k) k2 = alookup l k2 := by
  induction l with
  | nil => rfl
  | cons a rest ih =>
    obtain ⟨ka, v⟩ := a
    by_cases hk : ka = k
    · have hne : ka ≠ k2 := by rw [hk]; exact Ne.symm h
      simp only [removeKey, if_pos hk, alookup, if_neg hne]
      exact ih
    · by_cases hb : ka = k2
      · simp [removeKey, hk, alookup, if_pos hb]
      · simp [removeKey, hk, alookup, if_neg hb, ih]

theorem alookup_setFile_self (fs : FileStore) (fname : String)
    (content : List LogLine) : alookup (setFile fs fname content) fname
      = some content := by
  simp [setFile, alookup]

theorem alookup_map_snd {E F : Type} (l : List (Nat × E)) (f : E → F)
    (h : Nat) :
    alookup (l.map (fun p => (p.1, f p.2))) h = (alookup l h).map f := by
  induction l with
  | nil => rfl
  | cons a rest ih =>
    by_cases hk : a.1 = h
    · simp [alookup, hk]
    · simp [alookup, hk, ih]

theorem alookup_eq_of_nodup_keys {α β : Type} [DecidableEq α]
    {l : List (α × β)} (hn : (l.map Prod.fst).Nodup) {k : α} {b b2 : β}
    (h1 : (k, b) ∈ l) (h2 : (k, b2) ∈ l) : b = b2 := by
  induction l with
  | nil => simp at h1
  | cons a rest ih =>
    simp only [List.map_cons, List.nodup_cons] at hn
    rcases List.mem_cons.mp h1 with rfl | h1m
    · rcases List.mem_cons.mp h2 with he | h2m
      · exact (congrArg Prod.snd he).symm
      · exact absurd (List.mem_map_of_mem Prod.fst h2m) hn.1
    · rcases List.mem_cons.mp h2 with rfl | h2m
      · exact absurd (List.mem_map_of_mem Prod.fst h1m) hn.1
      · exact ih hn.2 h1m h2m

/-! ### Helper lemmas: log replay -/

theorem msgsOf_map_msg (l : List Message) :
    msgsOf (l.map LogLine.msg) = l := by
  induction l with
  | nil => rfl
  | cons a rest ih => simp [msgsOf, ih]

theorem msgsOf_serialize (s : Session) : msgsOf (serialize s) = s.messages := by
  simp [serialize, msgsOf, msgsOf_map_msg]

/-! ### Helper lemmas: `find?` characterization -/

theorem find?_eq_some_split {α : Type} {p : α → Bool} {l : List α} {x : α}
    (h : l.find? p = some x) :
    p x = true ∧ ∃ pre post, l = pre ++ x :: post ∧
      ∀ y ∈ pre, p y = false := by
  induction l with
  | nil => simp at h
  | cons a rest ih =>
    by_cases hp : p a
    · rw [List.find?_cons_of_pos _ hp] at h
      obtain rfl := Option.some.inj h
      exact ⟨hp, [], rest, rfl, by simp⟩
    · rw [List.find?_cons_of_neg _ hp] at h
      obtain ⟨hx, pre, post, rfl, hpre⟩ := ih h
      refine ⟨hx, a :: pre, post, rfl, ?_⟩
      intro y hy
      rcases List.mem_cons.mp hy with rfl | hy2
      · exact Bool.of_not_eq_true hp
      · exact hpre y hy2

/-! ### Helper lemmas: prefixes of character lists -/

theorem startsWithL_iff (s pre : List Char) :
    startsWithL s pre = true ↔ pre <+: s := by
  induction pre generalizing s with
  | nil => simp [startsWithL]
  | cons b bs ih =>
    cases s with
    | nil => simp [startsWithL]
    | cons a as =>
      constructor
      · intro hs
        have h1 : a = b ∧ startsWithL as bs = true := by
          simpa [startsWithL, Bool.and_eq_true, decide_eq_true_eq] using hs
        exact List.cons_prefix_cons.mpr ⟨h1.1.symm, (ih as).mp h1.2⟩
      · intro hp
        obtain ⟨hb, hbs⟩ := List.cons_prefix_cons.mp hp
        simp [startsWithL, hb.symm, (ih as).mpr hbs]

theorem startsWithL_append (pre rest : List Char) :
    startsWithL (pre ++ rest) pre = true :=
  (startsWithL_iff _ _).mpr ⟨rest, rfl⟩

theorem takeWhile_append_no_slash {n : List Char} (t : List Char)
    (h : '/' ∉ n) :
    (n ++ '/' :: t).takeWhile (fun c => c != '/') = n := by
  induction n with
  | nil => simp [List.takeWhile_cons]
  | cons a as ih =>
    have ha : a ≠ '/' := fun hc => h (hc ▸ List.mem_cons_self a as)
    have has : '/' ∉ as := fun hc => h (List.mem_cons_of_mem a hc)
    simp [List.takeWhile_cons, bne_iff_ne, ha, ih has]

/-! ### Helper lemmas: `get_or_create` -/

theorem get_or_create_cached (m : SessionManager) (k : String) (s : Session)
    (h : alookup m.cache k = some s) : m.get_or_create k = (s, m) := by
  simp [SessionManager.get_or_create, h]

theorem get_or_create_cache_self (m : SessionManager) (k : String) :
    alookup (m.get_or_create k).2.cache k = some (m.get_or_create k).1 := by
  rcases h : alookup m.cache k with _ | s
  · unfold SessionManager.get_or_create
    rw [h]
    rcases hs : alookup m.store (session_filename k) with _ | log
    · rcases hl : alookup m.legacy_store (session_filename k) with _ | log
      · simp [hs, hl, alookup]
      · simp [hs, hl, alookup]
    · simp [hs, alookup]
  · simp [SessionManager.get_or_create, h]

theorem get_or_create_countKey (m : SessionManager) (k : String)
    (hc : countKey m.cache k ≤ 1) :
    countKey (m.get_or_create k).2.cache k = 1 := by
  rcases h : alookup m.cache k with _ | s
  · have h0 := countKey_eq_zero_of_alookup_none h
    unfold SessionManager.get_or_create
    rw [h]
    rcases hs : alookup m.store (session_filename k) with _ | log
    · rcases hl : alookup m.legacy_store (session_filename k) with _ | log
      · simp [hs, hl, countKey, h0]
      · simp [hs, hl, countKey, h0]
    · simp [hs, countKey, h0]
  · have h1 := one_le_countKey_of_alookup_some h
    have h2 : countKey m.cache k = 1 := le_antisymm hc h1
    simp [SessionManager.get_or_create, h, h2]

theorem publishAll_absent {E : Type} (b : MessageBus E) (h : Nat)
    (habs : alookup b.subs h = none) (es : List E) :
    alookup (b.publishAll es).subs h = none := by
  induction es generalizing b with
  | nil => exact habs
  | cons e es ih =>
    show alookup ((b.publish e).publishAll es).subs h = none
    apply ih
    show alookup (b.subs.map (fun p => (p.1, p.2 ++ [e]))) h = none
    have h2 := alookup_map_snd b.subs (fun l2 => l2 ++ [e]) h
    rw [habs] at h2
    simpa using h2

theorem slash_terminated_pfx_unique {m n1 n2 : List Char}
    (h1 : '/' ∉ n1) (h2 : '/' ∉ n2)
    (p1 : n1 ++ ['/'] <+: m) (p2 : n2 ++ ['/'] <+: m) : n1 = n2 := by
  obtain ⟨t1, e1⟩ := p1
  obtain ⟨t2, e2⟩ := p2
  have e1' : m = n1 ++ '/' :: t1 := by
    rw [← e1, List.append_assoc]; rfl
  have e2' : m = n2 ++ '/' :: t2 := by
    rw [← e2, List.append_assoc]; rfl
  have q1 := takeWhile_append_no_slash t1 h1
  have q2 := takeWhile_append_no_slash t2 h2
  rw [← e1'] at q1
  rw [← e2'] at q2
  exact q1.symm.trans q2

/-! ### Helper lemmas: provider resolution -/

/-- The fixed declared provider order, by name. -/
def providerNames : List String :=
  ["anthropic", "openai", "openrouter", "deepseek", "groq", "zhipu",
   "dashscope", "vllm", "gemini", "moonshot", "minimax", "aihubmix",
   "siliconflow", "openai_codex", "github_copilot", "custom"]

theorem ordered_map_fst (pc : ProvidersConfig) :
    pc.ordered.map Prod.fst = providerNames := rfl

theorem providerNames_nodup : providerNames.Nodup := by decide

theorem providerNames_no_slash :
    ∀ nm ∈ providerNames, '/' ∉ nm.toList := by decide

theorem prefixMatch_unique {m n1 n2 : String}
    (h1 : '/' ∉ n1.toList) (h2 : '/' ∉ n2.toList)
    (p1 : prefixMatch m n1 = true) (p2 : prefixMatch m n2 = true) :
    n1 = n2 := by
  have q1 := (startsWithL_iff _ _).mp p1
  have q2 := (startsWithL_iff _ _).mp p2
  exact String.ext (slash_terminated_pfx_unique h1 h2 q1 q2)

/-! ### Claim theorems -/

/-- C1: for every key `k`, `get_or_create` leaves exactly one live Session
for `k` in the cache; because the check-then-insert is one atomic critical
section, two first-time calls for the same key (in either interleaving
order) yield the identical cached object, and any later `get_or_create`
while that Session is cached returns that identical object and leaves the
manager unchanged. -/
theorem get_or_create_single_live_session (m : SessionManager) (k : String)
    (hc : countKey m.cache k ≤ 1) :
    alookup (m.get_or_create k).2.cache k = some (m.get_or_create k).1 ∧
    countKey (m.get_or_create k).2.cache k = 1 ∧
    ((m.get_or_create k).2.get_or_create k).1 = (m.get_or_create k).1 ∧
    ((m.get_or_create k).2.get_or_create k).2 = (m.get_or_create k).2 := by
  have hcache := get_or_create_cache_self m k
  have hsecond := get_or_create_cached _ _ _ hcache
  exact ⟨hcache, get_or_create_countKey m k hc,
    by rw [hsecond], by rw [hsecond]⟩

/-- C1 witness: a fresh manager, key `"web:abc"`: the second call returns
the first call's Session. -/
theorem get_or_create_single_live_session_witness :
    countKey (SessionManager.fresh [] []).cache "web:abc" ≤ 1 ∧
    (((SessionManager.fresh [] []).get_or_create "web:abc").2.get_or_create
        "web:abc").1
      = ((SessionManager.fresh [] []).get_or_create "web:abc").1 :=
  ⟨by decide,
   (get_or_create_single_live_session (SessionManager.fresh [] []) "web:abc"
     (by decide)).2.2.1⟩

/-- C2: round-trip persistence. `save` overwrites the durable log with the
serialized in-memory session, and a fresh manager pointed at the same
storage root recovers, on `get_or_create` of the same key, exactly the
same message list (every extra field intact, original order preserved). -/
theorem save_reload_round_trip (m : SessionManager) (s : Session)
    (legacy : FileStore) :
    alookup (m.save s).store (session_filename s.key) = some (serialize s) ∧
    ((SessionManager.fresh (m.save s).store legacy).get_or_create
        s.key).1.messages = s.messages ∧
    ((SessionManager.fresh (m.save s).store legacy).get_or_create
        s.key).1.get_history none = s.get_history none := by
  have hstore : alookup (m.save s).store (session_filename s.key)
      = some (serialize s) := alookup_setFile_self _ _ _
  have hget : ((SessionManager.fresh (m.save s).store legacy).get_or_create
      s.key).1 = hydrate s.key (serialize s) := by
    unfold SessionManager.get_or_create SessionManager.fresh
    simp [alookup, hstore]
  refine ⟨hstore, ?_, ?_⟩
  · rw [hget]
    simp [hydrate, msgsOf_serialize]
  · rw [hget]
    simp [hydrate, Session.get_history, msgsOf_serialize]

/-- C4: legacy migration. When a session's durable log exists only under the
legacy root, the first `get_or_create` hydrates the Session with the legacy
file's messages, copies the log to the current root and retires the legacy
file, so the legacy file is no longer the source of truth for subsequent
loads (which read the current root). -/
theorem legacy_migration (m : SessionManager) (k : String)
    (log : List LogLine)
    (hc : alookup m.cache k = none)
    (hs : alookup m.store (session_filename k) = none)
    (hl : alookup m.legacy_store (session_filename k) = some log) :
    (m.get_or_create k).1.messages = msgsOf log ∧
    alookup (m.get_or_create k).2.legacy_store (session_filename k)
      = none ∧
    alookup (m.get_or_create k).2.store (session_filename k) = some log ∧
    ((SessionManager.fresh (m.get_or_create k).2.store
        (m.get_or_create k).2.legacy_store).get_or_create k).1.messages
      = msgsOf log := by
  have hres : m.get_or_create k
      = (hydrate k log,
         { m with
           cache := (k, hydrate k log) :: m.cache,
           store := setFile m.store (session_filename k) log,
           legacy_store := removeKey m.legacy_store (session_filename k) }) := by
    unfold SessionManager.get_or_create
    simp [hc, hs, hl]
  rw [hres]
  refine ⟨rfl, alookup_removeKey_self _ _, alookup_setFile_self _ _ _, ?_⟩
  unfold SessionManager.get_or_create SessionManager.fresh
  simp [alookup, alookup_setFile_self, hydrate]

/-- C4 witness: a legacy-only log for key `"web:migrate"` with one metadata
record and one message is migrated on first access. -/
theorem legacy_migration_witness :
    alookup (SessionManager.fresh [] [(session_filename "web:migrate",
        [LogLine.meta "2024-01-01T00:00:00",
         LogLine.msg ⟨"user", "legacy msg", 0, []⟩])]).cache "web:migrate"
      = none ∧
    ((SessionManager.fresh [] [(session_filename "web:migrate",
        [LogLine.meta "2024-01-01T00:00:00",
         LogLine.msg ⟨"user", "legacy msg", 0, []⟩])]).get_or_create
        "web:migrate").1.messages = [⟨"user", "legacy msg", 0, []⟩] := by
  refine ⟨rfl, ?_⟩
  have h := (legacy_migration
    (SessionManager.fresh [] [(session_filename "web:migrate",
        [LogLine.meta "2024-01-01T00:00:00",
         LogLine.msg ⟨"user", "legacy msg", 0, []⟩])])
    "web:migrate"
    [LogLine.meta "2024-01-01T00:00:00",
     LogLine.msg ⟨"user", "legacy msg", 0, []⟩]
    rfl rfl (by simp [SessionManager.fresh, alookup])).1
  rw [h]
  rfl

/-- C5: `get_history()` lists the messages as `{role, content, extras}`
dictionaries in append order (a freshly appended message comes last), and
for `n` below the total count `get_history(max_messages = n)` is exactly
the `n`-entry tail, in the same order. -/
theorem get_history_append_order_and_tail (s : Session) (n now : Nat)
    (role content : String) (extra : List (String × String))
    (h : n < s.messages.length) :
    (s.add_message now role content extra).get_history none
      = s.get_history none ++ [⟨role, content, extra⟩] ∧
    s.get_history (some n)
      = (s.messages.map Message.toHist).drop (s.messages.length - n) ∧
    (s.get_history (some n)).length = n := by
  have hdrop : s.get_history (some n)
      = (s.messages.map Message.toHist).drop (s.messages.length - n) := by
    show (((s.messages.map Message.toHist).reverse).take n).reverse = _
    rw [← List.rtake_eq_reverse_take_reverse]
    simp [List.rtake, List.length_map]
  refine ⟨?_, hdrop, ?_⟩
  · simp [Session.add_message, Session.get_history, Message.toHist]
  · rw [hdrop, List.length_drop, List.length_map]
    omega

/-- C5 witness: a session with two messages; the 1-entry tail has length 1
and is the most recent message. -/
theorem get_history_append_order_and_tail_witness :
    1 < (((Session.fresh "k").add_message 0 "user" "a" []).add_message 1
        "assistant" "b" []).messages.length ∧
    ((((Session.fresh "k").add_message 0 "user" "a" []).add_message 1
        "assistant" "b" []).get_history (some 1)).length = 1 :=
  ⟨by decide,
   (get_history_append_order_and_tail
     (((Session.fresh "k").add_message 0 "user" "a" []).add_message 1
       "assistant" "b" []) 1 2 "user" "c" [] (by decide)).2.2⟩

/-- C6: `clear()` empties the message list and resets `last_consolidated`
to 0 while preserving `key`, and a subsequent `save` followed by a reload
on a fresh manager yields an empty history. -/
theorem clear_empties_and_persists (s : Session) (m : SessionManager)
    (legacy : FileStore) :
    s.clear.messages = [] ∧
    s.clear.last_consolidated = 0 ∧
    s.clear.key = s.key ∧
    ((SessionManager.fresh (m.save s.clear).store legacy).get_or_create
        s.key).1.get_history none = [] := by
  refine ⟨rfl, rfl, rfl, ?_⟩
  have h := (save_reload_round_trip m s.clear legacy).2.2
  have hk : s.clear.key = s.key := rfl
  rw [hk] at h
  rw [h]
  rfl

/-- C7: reading a durable log never fails: metadata records and unreadable
lines are skipped by replay, `get_or_create` hydrates from whatever
messages remain, and when nothing valid can be recovered the caller gets a
fresh empty Session for the key rather than an error. -/
theorem corrupt_log_recovery (m : SessionManager) (k : String)
    (log rest : List LogLine) (raw : String)
    (hc : alookup m.cache k = none)
    (hs : alookup m.store (session_filename k) = some log) :
    msgsOf (LogLine.garbage raw :: rest) = msgsOf rest ∧
    msgsOf (LogLine.meta raw :: rest) = msgsOf rest ∧
    (m.get_or_create k).1.messages = msgsOf log ∧
    (m.get_or_create k).1.key = k ∧
    (msgsOf log = [] → metaOf log = "" →
      (m.get_or_create k).1 = Session.fresh k) := by
  have hres : (m.get_or_create k).1 = hydrate k log := by
    unfold SessionManager.get_or_create
    simp [hc, hs]
  refine ⟨rfl, rfl, ?_, ?_, ?_⟩
  · rw [hres]; rfl
  · rw [hres]; rfl
  · intro hmsgs hmeta
    rw [hres]
    simp [hydrate, Session.fresh, hmsgs, hmeta]

/-- C7 witness: a log of two unreadable lines and a stray metadata record
recovers as a fresh empty session for the key. -/
theorem corrupt_log_recovery_witness :
    ((SessionManager.fresh [(session_filename "web:bad",
        [LogLine.garbage "not json at all", LogLine.garbage "oops-not-parseable",
         LogLine.meta ""])] []).get_or_create "web:bad").1
      = Session.fresh "web:bad" :=
  (corrupt_log_recovery
    (SessionManager.fresh [(session_filename "web:bad",
        [LogLine.garbage "not json at all", LogLine.garbage "oops-not-parseable",
         LogLine.meta ""])] [])
    "web:bad"
    [LogLine.garbage "not json at all", LogLine.garbage "oops-not-parseable",
     LogLine.meta ""]
    [] "x" rfl (by simp [SessionManager.fresh, alookup])).2.2.2.2 rfl rfl

/-- C8: `invalidate(k)` removes `k` from the cache and touches nothing
else: both storage roots are untouched, other cached keys are untouched,
and the next `get_or_create(k)` rebuilds the Session from the durable log
alone, so unsaved in-memory mutations are lost. -/
theorem invalidate_cache_only (m : SessionManager) (k k2 : String)
    (log : List LogLine) (hne : k2 ≠ k) :
    alookup (m.invalidate k).cache k = none ∧
    (m.invalidate k).store = m.store ∧
    (m.invalidate k).legacy_store = m.legacy_store ∧
    alookup (m.invalidate k).cache k2 = alookup m.cache k2 ∧
    (alookup m.store (session_filename k) = some log →
      ((m.invalidate k).get_or_create k).1 = hydrate k log) := by
  refine ⟨alookup_removeKey_self _ _, rfl, rfl,
    alookup_removeKey_ne _ hne, ?_⟩
  intro hs
  unfold SessionManager.get_or_create
  simp [SessionManager.invalidate, alookup_removeKey_self, hs]

/-- C8 witness: invalidating a cached key whose log holds one message makes
the next `get_or_create` reload that message from disk, dropping the
unsaved in-memory messages. -/
theorem invalidate_cache_only_witness :
    (((SessionManager.mk
        [("test:inv", ⟨"test:inv", [⟨"user", "unsaved", 5, []⟩,
           ⟨"user", "unsaved2", 6, []⟩], 0, 6, ""⟩)]
        [(session_filename "test:inv",
          [LogLine.meta "", LogLine.msg ⟨"user", "hi", 0, []⟩])]
        []).invalidate "test:inv").get_or_create "test:inv").1
      = hydrate "test:inv" [LogLine.meta "",
          LogLine.msg ⟨"user", "hi", 0, []⟩] :=
  (invalidate_cache_only
    (SessionManager.mk
        [("test:inv", ⟨"test:inv", [⟨"user", "unsaved", 5, []⟩,
           ⟨"user", "unsaved2", 6, []⟩], 0, 6, ""⟩)]
        [(session_filename "test:inv",
          [LogLine.meta "", LogLine.msg ⟨"user", "hi", 0, []⟩])]
        [])
    "test:inv" "other" [LogLine.meta "", LogLine.msg ⟨"user", "hi", 0, []⟩]
    (by decide)).2.2.2.2 (by simp [alookup])

/-- C9: `publish` delivers an event to every currently-subscribed consumer
exactly once, by appending it to that consumer's own queue; after
`unsubscribe(h)` the consumer `h` is gone and receives nothing from any
later sequence of publishes. -/
theorem bus_publish_once_unsubscribe_nothing {E : Type} (b : MessageBus E)
    (e : E) (h : Nat) (q es : List E) :
    (alookup b.subs h = some q →
      alookup (b.publish e).subs h = some (q ++ [e])) ∧
    alookup (b.unsubscribe h).subs h = none ∧
    alookup ((b.unsubscribe h).publishAll es).subs h = none := by
  refine ⟨?_, alookup_removeKey_self _ _,
    publishAll_absent _ _ (alookup_removeKey_self _ _) es⟩
  intro hq
  show alookup (b.subs.map (fun p => (p.1, p.2 ++ [e]))) h = _
  have h2 := alookup_map_snd b.subs (fun l2 => l2 ++ [e]) h
  rw [hq] at h2
  simpa using h2

/-- C9 witness: a bus with one subscriber of handle 0 and queue `[1, 2]`:
publishing `3` appends exactly one copy to that queue. -/
theorem bus_publish_once_unsubscribe_nothing_witness :
    alookup ((MessageBus.mk 1 [(0, [1, 2])] : MessageBus Nat).publish
        3).subs 0 = some ([1, 2] ++ [3]) :=
  (bus_publish_once_unsubscribe_nothing
    (MessageBus.mk 1 [(0, [1, 2])]) 3 0 [1, 2] []).1 (by decide)

/-- C3: provider resolution is a deterministic total function with the
declared precedence: (1) a recognized provider prefix of the model string
whose provider has a non-empty key wins; (2) else the first provider in
declared order whose name occurs as a keyword in the model string and has a
non-empty key; (3) else (no match or no model) the first provider in
declared order with a non-empty key; (4) with no key anywhere the result is
absence, never an exception; `get_provider_name`/`get_api_base` follow the
same resolution. -/
theorem provider_resolution_precedence (pc : ProvidersConfig)
    (mo : Option String) (m n : String) (cfg : ProviderConfig) :
    ((∀ p ∈ pc.ordered, p.2.api_key = "") →
      Config.get_provider ⟨pc⟩ mo = none ∧
      Config.get_provider_name ⟨pc⟩ mo = none ∧
      Config.get_api_key ⟨pc⟩ mo = none) ∧
    ((n, cfg) ∈ pc.ordered → prefixMatch m n = true → cfg.api_key ≠ "" →
      Config.get_provider ⟨pc⟩ (some m) = some cfg ∧
      Config.get_provider_name ⟨pc⟩ (some m) = some n) ∧
    ((∀ p ∈ pc.ordered, ¬(prefixMatch m p.1 = true ∧ p.2.api_key ≠ "")) →
      pc.ordered.find? (fun p => keywordMatch m p.1 && hasKey p)
        = some (n, cfg) →
      Config.get_provider ⟨pc⟩ (some m) = some cfg ∧
      keywordMatch m n = true ∧ cfg.api_key ≠ "" ∧
      ∃ pre post, pc.ordered = pre ++ (n, cfg) :: post ∧
        ∀ q ∈ pre, (keywordMatch m q.1 && hasKey q) = false) ∧
    ((∀ p ∈ pc.ordered, ¬(prefixMatch m p.1 = true ∧ p.2.api_key ≠ "")) →
     (∀ p ∈ pc.ordered, ¬(keywordMatch m p.1 = true ∧ p.2.api_key ≠ "")) →
      Config.get_provider ⟨pc⟩ (some m)
        = (firstWithKey pc.ordered).map Prod.snd) ∧
    (resolve_provider pc.ordered none = some (n, cfg) →
      cfg.api_key ≠ "" ∧
      ∃ pre post, pc.ordered = pre ++ (n, cfg) :: post ∧
        ∀ q ∈ pre, q.2.api_key = "") ∧
    (Config.get_provider_name ⟨pc⟩ mo
      = (resolve_provider pc.ordered mo).map Prod.fst ∧
     Config.get_api_base ⟨pc⟩ mo
      = (resolve_provider pc.ordered mo).map
          (fun p => p.2.api_base.getD (default_api_base p.1))) := by
  refine ⟨?_, ?_, ?_, ?_, ?_, rfl, rfl⟩
  · -- (4) absence: no key anywhere resolves to none
    intro hall
    have hfk : firstWithKey pc.ordered = none := by
      apply List.find?_eq_none.mpr
      intro p hp
      simp [hasKey, hall p hp]
    have hres : resolve_provider pc.ordered mo = none := by
      cases mo with
      | none => simpa [resolve_provider] using hfk
      | some mm =>
        have h1 : pc.ordered.find?
            (fun p => prefixMatch mm p.1 && hasKey p) = none := by
          apply List.find?_eq_none.mpr
          intro p hp
          simp [hasKey, hall p hp]
        have h2 : pc.ordered.find?
            (fun p => keywordMatch mm p.1 && hasKey p) = none := by
          apply List.find?_eq_none.mpr
          intro p hp
          simp [hasKey, hall p hp]
        simp [resolve_provider, h1, h2, hfk]
    simp [Config.get_provider, Config.get_provider_name, Config.get_api_key,
      hres]
  · -- (1) a recognized prefix with a non-empty key wins
    intro hmem hpm hkey
    have hfind : pc.ordered.find?
        (fun p => prefixMatch m p.1 && hasKey p) = some (n, cfg) := by
      have hpred : (prefixMatch m n && hasKey (n, cfg)) = true := by
        simp [hpm, hasKey, bne_iff_ne, hkey]
      rcases hr : pc.ordered.find?
          (fun p => prefixMatch m p.1 && hasKey p) with _ | r
      · exact absurd hpred (by simpa using List.find?_eq_none.mp hr (n, cfg) hmem)
      obtain ⟨rn, rc⟩ := r
      have hrp := List.find?_some hr
      have hrmem := List.mem_of_find?_eq_some hr
      simp only [Bool.and_eq_true] at hrp
      have hn1 : n ∈ providerNames := by
        rw [← ordered_map_fst pc]
        exact List.mem_map_of_mem Prod.fst hmem
      have hn2 : rn ∈ providerNames := by
        rw [← ordered_map_fst pc]
        exact List.mem_map_of_mem Prod.fst hrmem
      have heqname : rn = n :=
        prefixMatch_unique (providerNames_no_slash _ hn2)
          (providerNames_no_slash _ hn1) hrp.1 hpm
      subst heqname
      have heqcfg : rc = cfg :=
        alookup_eq_of_nodup_keys
          (by rw [ordered_map_fst]; exact providerNames_nodup) hrmem hmem
      rw [hr, heqcfg]
    constructor
    · simp [Config.get_provider, resolve_provider, hfind]
    · simp [Config.get_provider_name, resolve_provider, hfind]
  · -- (2) else the first keyword match with a non-empty key
    intro hnopfx hfindkw
    have h1 : pc.ordered.find?
        (fun p => prefixMatch m p.1 && hasKey p) = none := by
      apply List.find?_eq_none.mpr
      intro p hp
      have := hnopfx p hp
      simp only [Bool.and_eq_true, hasKey, bne_iff_ne, ne_eq]
      tauto
    obtain ⟨hpred, pre, post, hsplit, hpre⟩ := find?_eq_some_split hfindkw
    simp only [Bool.and_eq_true, hasKey, bne_iff_ne, ne_eq] at hpred
    refine ⟨?_, hpred.1, hpred.2, pre, post, hsplit, ?_⟩
    · simp [Config.get_provider, resolve_provider, h1, hfindkw]
    · intro q hq
      exact hpre q hq
  · -- (3) no match at all: fall back to the first provider with a key
    intro hnopfx hnokw
    have h1 : pc.ordered.find?
        (fun p => prefixMatch m p.1 && hasKey p) = none := by
      apply List.find?_eq_none.mpr
      intro p hp
      have := hnopfx p hp
      simp only [Bool.and_eq_true, hasKey, bne_iff_ne, ne_eq]
      tauto
    have h2 : pc.ordered.find?
        (fun p => keywordMatch m p.1 && hasKey p) = none := by
      apply List.find?_eq_none.mpr
      intro p hp
      have := hnokw p hp
      simp only [Bool.and_eq_true, hasKey, bne_iff_ne, ne_eq]
      tauto
    simp [Config.get_provider, resolve_provider, h1, h2]
  · -- no model given: the first provider in declared order with a key
    intro hres
    have hfind : firstWithKey pc.ordered = some (n, cfg) := by
      simpa [resolve_provider] using hres
    obtain ⟨hpred, pre, post, hsplit, hpre⟩ := find?_eq_some_split hfind
    simp only [hasKey, bne_iff_ne, ne_eq] at hpred
    refine ⟨hpred, pre, post, hsplit, ?_⟩
    intro q hq
    have := hpre q hq
    simpa [hasKey] using this

/-- C3 witness: with only a deepseek key configured,
`get_provider("deepseek/deepseek-chat")` returns the deepseek config and
`get_provider_name` returns `"deepseek"`. -/
theorem provider_resolution_precedence_witness :
    Config.get_provider
        ⟨{ ProvidersConfig.default with
           deepseek := ⟨"ds-key", none, none⟩ }⟩
        (some "deepseek/deepseek-chat") = some ⟨"ds-key", none, none⟩ ∧
    Config.get_provider_name
        ⟨{ ProvidersConfig.default with
           deepseek := ⟨"ds-key", none, none⟩ }⟩
        (some "deepseek/deepseek-chat") = some "deepseek" :=
  (provider_resolution_precedence
    { ProvidersConfig.default with deepseek := ⟨"ds-key", none, none⟩ }
    (some "deepseek/deepseek-chat") "deepseek/deepseek-chat" "deepseek"
    ⟨"ds-key", none, none⟩).2.1 (by decide) (by decide) (by decide)

/-- A path of the form `r ++ "/" ++ rest` starts with `r ++ "/"`: it lies
under the directory `r`. -/
theorem under_data_dir (r : String) (t : List Char) :
    startsWithL (r.toList ++ '/' :: t) (r.toList ++ ['/']) = true := by
  have h := startsWithL_append (r.toList ++ ['/']) t
  simpa [List.append_assoc] using h

/-- C10: data-directory resolution precedence. A non-empty `POCKETBOT_HOME`
wins (user-expanded); otherwise `~/.pocketbot` is returned whenever it
exists or `~/.nanobot` does not, and `~/.nanobot` is returned exactly when
it exists and `~/.pocketbot` does not; every derived path (config,
sessions, history, media, bridge) lies under the resolved directory. -/
theorem resolve_data_dir_precedence (st : HomeState) (home e : String) :
    (st.pocketbot_home = some e → e ≠ "" →
      resolve_data_dir st home = expanduser e home) ∧
    ((st.pocketbot_home = none ∨ st.pocketbot_home = some "") →
      ((st.pocketbot_exists || !st.nanobot_exists) = true →
        resolve_data_dir st home = home ++ "/.pocketbot") ∧
      (resolve_data_dir st home = home ++ "/.nanobot" ↔
        st.nanobot_exists = true ∧ st.pocketbot_exists = false)) ∧
    startsWithL (config_path st home).toList
      ((resolve_data_dir st home).toList ++ ['/']) = true ∧
    startsWithL (sessions_dir st home).toList
      ((resolve_data_dir st home).toList ++ ['/']) = true ∧
    startsWithL (history_dir st home).toList
      ((resolve_data_dir st home).toList ++ ['/']) = true ∧
    startsWithL (media_dir st home).toList
      ((resolve_data_dir st home).toList ++ ['/']) = true ∧
    startsWithL (bridge_dir st home).toList
      ((resolve_data_dir st home).toList ++ ['/']) = true := by
  have hne : home ++ "/.pocketbot" ≠ home ++ "/.nanobot" := by
    intro hcontra
    have hdata : (home ++ "/.pocketbot").data = (home ++ "/.nanobot").data :=
      congrArg String.data hcontra
    rw [String.data_append, String.data_append] at hdata
    exact absurd (List.append_cancel_left hdata) (by decide)
  refine ⟨?_, ?_, ?_, ?_, ?_, ?_, ?_⟩
  · intro h1 h2
    simp [resolve_data_dir, h1, h2]
  · intro hopt
    have hdef : resolve_data_dir st home =
        if st.pocketbot_exists || !st.nanobot_exists
        then home ++ "/.pocketbot" else home ++ "/.nanobot" := by
      rcases hopt with h | h <;> simp [resolve_data_dir, h]
    rw [hdef]
    cases hp : st.pocketbot_exists <;> cases hn : st.nanobot_exists <;>
      simp [hne]
  · have hp2 : (config_path st home).toList
        = (resolve_data_dir st home).toList
          ++ '/' :: ("config.json" : String).toList := by
      show (resolve_data_dir st home ++ "/config.json").data = _
      rw [String.data_append]
      rfl
    rw [hp2]
    exact under_data_dir _ _
  · have hp2 : (sessions_dir st home).toList
        = (resolve_data_dir st home).toList
          ++ '/' :: ("sessions" : String).toList := by
      show (resolve_data_dir st home ++ "/sessions").data = _
      rw [String.data_append]
      rfl
    rw [hp2]
    exact under_data_dir _ _
  · have hp2 : (history_dir st home).toList
        = (resolve_data_dir st home).toList
          ++ '/' :: ("history" : String).toList := by
      show (resolve_data_dir st home ++ "/history").data = _
      rw [String.data_append]
      rfl
    rw [hp2]
    exact under_data_dir _ _
  · have hp2 : (media_dir st home).toList
        = (resolve_data_dir st home).toList
          ++ '/' :: ("media" : String).toList := by
      show (resolve_data_dir st home ++ "/media").data = _
      rw [String.data_append]
      rfl
    rw [hp2]
    exact under_data_dir _ _
  · have hp2 : (bridge_dir st home).toList
        = (resolve_data_dir st home).toList
          ++ '/' :: ("bridge" : String).toList := by
      show (resolve_data_dir st home ++ "/bridge").data = _
      rw [String.data_append]
      rfl
    rw [hp2]
    exact under_data_dir _ _

/-- C10 witness: with `POCKETBOT_HOME = "~/data"` the environment wins
(user-expanded); with it unset, `~/.nanobot` existing and `~/.pocketbot`
missing, the legacy directory is resolved. -/
theorem resolve_data_dir_precedence_witness :
    resolve_data_dir ⟨some "~/data", false, true⟩ "/home/u"
      = expanduser "~/data" "/home/u" ∧
    resolve_data_dir ⟨none, false, true⟩ "/home/u"
      = "/home/u" ++ "/.nanobot" :=
  ⟨(resolve_data_dir_precedence ⟨some "~/data", false, true⟩ "/home/u"
      "~/data").1 rfl (by decide),
   ((resolve_data_dir_precedence ⟨none, false, true⟩ "/home/u" "").2.1
      (Or.inl rfl)).2.mpr ⟨rfl, rfl⟩⟩

end Nanobot
